import Mathlib

/-!
Shallow embedding of the cache engine and secrets client of the
`cl-nestjs-alicloud-kms` repository (files `src/cache.service.ts`,
`src/kms.service.ts`, `src/utils.ts`), together with theorems settling the
specification claims about them.

Conventions of the embedding:
* JavaScript timestamps (`Date.now()`, `expiresAt`, `lastAccessedAt`) and TTL
  values are rational numbers (milliseconds / seconds); every operation that
  reads the clock takes the current time `now` as an explicit argument.
* The JavaScript `Map` backing the cache is an association list in insertion
  order: `Map.set` on a present key updates it in place, on an absent key
  appends; `Map.delete` removes the entry; iteration follows list order.
* Falsy-or-default expressions such as `config.ttl || 300` are modelled by
  `jsOrQ` / `jsOrN` / `jsOrS` (`0`, `""` and `undefined` select the default).
* Events emitted by an operation are returned as an explicit list.
-/

deriving instance DecidableEq for Except

namespace JsStr

/-- `String.prototype.toLowerCase`, modelled character-wise. -/
def toLower (s : String) : String :=
  ⟨s.data.map Char.toLower⟩

/-- `String.prototype.trim`: strip leading and trailing whitespace. -/
def trim (s : String) : String :=
  ⟨((s.data.dropWhile Char.isWhitespace).reverse.dropWhile Char.isWhitespace).reverse⟩

/-- `String.prototype.startsWith`. -/
def startsWith (s pre : String) : Bool :=
  pre.data.isPrefixOf s.data

/-- `s.substring(n)`: drop the first `n` characters. -/
def dropChars (s : String) (n : ℕ) : String :=
  ⟨s.data.drop n⟩

/-- `pat` occurs as a contiguous run inside the character list. -/
def containsSub (pat : List Char) : List Char → Bool
  | [] => pat.isEmpty
  | c :: rest => pat.isPrefixOf (c :: rest) || containsSub pat rest

/-- JavaScript `s.includes(pat)`. -/
def strContains (s pat : String) : Bool :=
  containsSub pat.toList s.toList

/-- `String.prototype.split` with a one-character separator (split on `'.'`
in `extractJsonPath`); splitting the empty string yields `[""]`. -/
def splitOnChar (c : Char) : List Char → List (List Char)
  | [] => [[]]
  | x :: rest =>
    if x = c then
      [] :: splitOnChar c rest
    else
      match splitOnChar c rest with
      | seg :: segs => (x :: seg) :: segs
      | [] => [[x]]

/-- `s.split(c)` as strings. -/
def splitOn (s : String) (c : Char) : List String :=
  (splitOnChar c s.data).map fun l => ⟨l⟩

end JsStr

namespace Cache

/-- Cache event type (`CacheEventType` in `cache.service.ts`). -/
inductive EventType where
  | hit
  | miss
  | set
  | delete
  | expire
  | clear
deriving DecidableEq, Repr

/-- Cache entry (`CacheItem<T>` in `cache.service.ts`). -/
structure Item (α : Type) where
  value : α
  createdAt : ℚ
  expiresAt : ℚ
  accessCount : ℕ
  lastAccessedAt : ℚ
deriving DecidableEq, Repr

/-- Effective cache configuration (`Required<SecretCacheOptions>` after the
constructor applied defaults). -/
structure Config where
  enabled : Bool
  ttl : ℚ
  maxSize : ℕ
  keyPrefix : String
deriving DecidableEq, Repr

/-- JavaScript `x || d` for an optional number (`0` and `undefined` are falsy). -/
def jsOrQ (x : Option ℚ) (d : ℚ) : ℚ :=
  match x with
  | none => d
  | some v => if v = 0 then d else v

/-- JavaScript `x || d` for an optional natural number. -/
def jsOrN (x : Option ℕ) (d : ℕ) : ℕ :=
  match x with
  | none => d
  | some v => if v = 0 then d else v

/-- JavaScript `x || d` for an optional string (`""` and `undefined` are falsy). -/
def jsOrS (x : Option String) (d : String) : String :=
  match x with
  | none => d
  | some v => if v = "" then d else v

/-- Constructor defaulting of `CacheService` (`ttl: config.ttl || 300`,
`maxSize: config.maxSize || 1000`, `keyPrefix: config.keyPrefix || 'kms_secret:'`). -/
def mkConfig (enabled : Bool) (ttl : Option ℚ) (maxSize : Option ℕ)
    (keyPrefix : Option String) : Config :=
  ⟨enabled, jsOrQ ttl 300, jsOrN maxSize 1000, jsOrS keyPrefix "kms_secret:"⟩

/-- Mutable state of a `CacheService` instance: the backing `Map` plus the
hit/miss counters. -/
structure State (α : Type) where
  cache : List (String × Item α)
  hitCount : ℕ
  missCount : ℕ
deriving DecidableEq, Repr

/-- An emitted event: `(eventType, key, value?)`. -/
abbrev EventRec (α : Type) := EventType × String × Option α

/-- `Map.get`: first entry with the given key. -/
def mapGet (k : String) : List (String × Item α) → Option (Item α)
  | [] => none
  | e :: rest => if e.1 = k then some e.2 else mapGet k rest

/-- `Map.set`: update in place if the key is present, append otherwise. -/
def mapSet (k : String) (v : Item α) : List (String × Item α) → List (String × Item α)
  | [] => [(k, v)]
  | e :: rest => if e.1 = k then (k, v) :: rest else e :: mapSet k v rest

/-- `Map.delete`: remove the entry with the given key. -/
def removeKey (k : String) : List (String × Item α) → List (String × Item α)
  | [] => []
  | e :: rest => if e.1 = k then rest else e :: removeKey k rest

/-- `generateKey`: prepend the configured key prefix. -/
def generateKey (cfg : Config) (key : String) : String :=
  cfg.keyPrefix ++ key

/-- `isExpired`: `Date.now() > item.expiresAt`. -/
def isExpired (now : ℚ) (item : Item α) : Bool :=
  decide (item.expiresAt < now)

/-- The prefix-stripping done when reporting a stored key
(`key.startsWith(prefix) ? key.substring(prefix.length) : key`). -/
def stripKey (cfg : Config) (k : String) : String :=
  if JsStr.startsWith k cfg.keyPrefix then JsStr.dropChars k cfg.keyPrefix.length else k

/-- One step of the eviction scan of `evictLeastRecentlyUsed`: keep the entry
whose `lastAccessedAt` is strictly smallest so far. -/
def scanStep (acc : String × ℚ) (e : String × Item α) : String × ℚ :=
  if e.2.lastAccessedAt < acc.2 then (e.1, e.2.lastAccessedAt) else acc

/-- The eviction scan: fold over all entries starting from
`oldestKey = ''`, `oldestTime = Date.now()`. -/
def scanOldest (now : ℚ) (l : List (String × Item α)) : String × ℚ :=
  l.foldl scanStep ("", now)

/-- `evictLeastRecentlyUsed`: remove the entry selected by the scan (if any)
and emit a `delete` event with the prefix-stripped key. -/
def evictLeastRecentlyUsed (cfg : Config) (st : State α) (now : ℚ) :
    State α × List (EventRec α) :=
  let sc := scanOldest now st.cache
  if sc.1 ≠ "" then
    ({ st with cache := removeKey sc.1 st.cache },
      [(EventType.delete, stripKey cfg sc.1, none)])
  else
    (st, [])

/-- `CacheService.get`. -/
def getOp (cfg : Config) (st : State α) (now : ℚ) (key : String) :
    Option α × State α × List (EventRec α) :=
  if cfg.enabled = false then
    (none, st, [])
  else
    let ck := generateKey cfg key
    match mapGet ck st.cache with
    | none =>
        (none, { st with missCount := st.missCount + 1 }, [(EventType.miss, key, none)])
    | some item =>
        if isExpired now item then
          (none,
            { st with cache := removeKey ck st.cache, missCount := st.missCount + 1 },
            [(EventType.expire, key, none)])
        else
          (some item.value,
            { st with
                cache := mapSet ck
                  { item with accessCount := item.accessCount + 1, lastAccessedAt := now }
                  st.cache,
                hitCount := st.hitCount + 1 },
            [(EventType.hit, key, some item.value)])

/-- `CacheService.set`. -/
def setOp (cfg : Config) (st : State α) (now : ℚ) (key : String) (value : α)
    (customTtl : Option ℚ) : State α × List (EventRec α) :=
  if cfg.enabled = false then
    (st, [])
  else
    let ck := generateKey cfg key
    let ttl := jsOrQ customTtl cfg.ttl * 1000
    let item : Item α := ⟨value, now, now + ttl, 0, now⟩
    let ev :=
      if decide (cfg.maxSize ≤ st.cache.length) && (mapGet ck st.cache).isNone then
        evictLeastRecentlyUsed cfg st now
      else
        (st, [])
    ({ ev.1 with cache := mapSet ck item ev.1.cache },
      ev.2 ++ [(EventType.set, key, some value)])

/-- Cache statistics (`CacheStats`). -/
structure Stats where
  totalKeys : ℕ
  hitCount : ℕ
  missCount : ℕ
  hitRate : ℚ
  totalMemoryUsage : ℕ
deriving DecidableEq, Repr

/-- `Number(x.toFixed(4))`: round to four decimal places. -/
def round4 (q : ℚ) : ℚ :=
  ((round (q * 10000) : ℤ) : ℚ) / 10000

/-- The memory-estimate loop of `getStats`; `strf` is `JSON.stringify`, with
`none` meaning serialization threw (then the fixed 64-byte estimate is used). -/
def estimateMemory (strf : α → Option String) (l : List (String × Item α)) : ℕ :=
  l.foldl
    (fun acc e =>
      acc + e.1.length * 2 +
        (match strf e.2.value with
          | some s => s.length * 2
          | none => 64) + 64)
    0

/-- `CacheService.getStats`. -/
def getStats (strf : α → Option String) (st : State α) : Stats :=
  let totalRequests := st.hitCount + st.missCount
  let hitRate : ℚ :=
    if 0 < totalRequests then (st.hitCount : ℚ) / (totalRequests : ℚ) else 0
  ⟨st.cache.length, st.hitCount, st.missCount, round4 hitRate,
    estimateMemory strf st.cache⟩

/-- The warning logged when an event listener throws. -/
def listenerWarning (msg : String) : String :=
  "Error in cache event listener: " ++ msg

/-- `CacheService.emitEvent`: call every registered listener in registration
order; a throwing listener (`behavior l = .error e`) is caught and logged.
The result records the listeners actually invoked and the warnings logged;
an `.error` result would mean an uncaught exception escaping to the caller. -/
def emitEvent {L : Type} (behavior : L → Except String Unit) :
    List L → Except String (List L × List String)
  | [] => Except.ok ([], [])
  | l :: rest =>
    let caught : List String :=
      match behavior l with
      | Except.ok _ => []
      | Except.error e => [listenerWarning e]
    match emitEvent behavior rest with
    | Except.ok (tr, logs) => Except.ok (l :: tr, caught ++ logs)
    | Except.error e => Except.error e

/-- The warnings `emitEvent` logs for a given listener list. -/
def warnLogs {L : Type} (behavior : L → Except String Unit) (listeners : List L) :
    List String :=
  listeners.filterMap fun l =>
    match behavior l with
    | Except.ok _ => none
    | Except.error e => some (listenerWarning e)

/-- Spec-side definition, following the spec's words: an entry is live when
`now <= expiresAt`; this counts the live entries of a state. -/
def specLiveKeyCount (st : State α) (now : ℚ) : ℕ :=
  (st.cache.filter fun e => decide (now ≤ e.2.expiresAt)).length

/-- Entries that are physically resident but already expired. -/
def expiredKeyCount (st : State α) (now : ℚ) : ℕ :=
  (st.cache.filter fun e => decide (e.2.expiresAt < now)).length

end Cache

namespace Kms

/-- The non-retryable message patterns of `isNonRetryableError`. -/
def nonRetryablePatterns : List String :=
  ["unauthorized", "forbidden", "access denied", "invalid signature",
    "invalid access key", "invalid parameter", "secret not found", "bad request"]

/-- `KmsService.isNonRetryableError`: lower-case the message and test the fixed
pattern list with `includes`. -/
def isNonRetryableError (msg : String) : Bool :=
  nonRetryablePatterns.any fun pat => JsStr.strContains (JsStr.toLower msg) pat

/-- Outcome of `executeWithRetry`: the value or raised error, the number of
attempts performed, and the backoff delays slept between attempts. -/
structure RetryResult (α : Type) where
  result : Except String α
  attemptsMade : ℕ
  delays : List ℚ
deriving DecidableEq

/-- The retry loop of `executeWithRetry`. `op a` is the outcome of attempt `a`
(1-based), `jit a` is the `Math.random() * 1000` jitter drawn before the sleep
following attempt `a`. The first argument of the final group is the number of
attempts remaining (including the current one); the base case with no attempt
remaining is unreachable for a positive attempt budget. -/
def retryAux (op : ℕ → Except String α) (jit : ℕ → ℚ) (baseDelay : ℚ) :
    ℕ → ℕ → List ℚ → RetryResult α
  | 0, attempt, delays => ⟨Except.error "", attempt - 1, delays.reverse⟩
  | rem + 1, attempt, delays =>
    match op attempt with
    | Except.ok v => ⟨Except.ok v, attempt, delays.reverse⟩
    | Except.error e =>
      if isNonRetryableError e then
        ⟨Except.error e, attempt, delays.reverse⟩
      else if rem = 0 then
        ⟨Except.error e, attempt, delays.reverse⟩
      else
        retryAux op jit baseDelay rem (attempt + 1)
          ((baseDelay * 2 ^ (attempt - 1) + jit attempt) :: delays)

/-- `KmsService.executeWithRetry` with explicit `maxRetries` and `baseDelay`. -/
def executeWithRetry (op : ℕ → Except String α) (jit : ℕ → ℚ) (maxRetries : ℕ)
    (baseDelay : ℚ) : RetryResult α :=
  retryAux op jit baseDelay maxRetries 1 []

/-- `executeWithRetry` at its default parameters (`maxRetries = 3`,
`baseDelay = 1000`), as used by `getSecretValue`. -/
def executeWithRetryDefaults (op : ℕ → Except String α) (jit : ℕ → ℚ) :
    RetryResult α :=
  executeWithRetry op jit 3 1000

/-- Allowed characters of a secret name (`/^[a-zA-Z0-9/_.-]+$/`). -/
def secretNameValidChar (c : Char) : Bool :=
  c.isAlphanum || c = '/' || c = '_' || c = '.' || c = '-'

/-- `validateSecretName` from `utils.ts`. -/
def validateSecretName (secretName : String) : Except String Unit :=
  if secretName = "" then
    Except.error "Secret name must be a non-empty string"
  else
    let trimmed := JsStr.trim secretName
    if trimmed.length = 0 then
      Except.error "Secret name cannot be empty or whitespace only"
    else if 255 < trimmed.length then
      Except.error "Secret name cannot exceed 255 characters"
    else if trimmed.toList.all secretNameValidChar then
      Except.ok ()
    else
      Except.error
        "Secret name can only contain letters, numbers, underscores, hyphens, periods, and forward slashes"

/-- Argument of `getMultipleSecrets`: either a JavaScript value that is not an
array (`Array.isArray` fails) or an array of strings. -/
inductive NamesArg where
  | notAnArray
  | arr (names : List String)

/-- The `secretNames.forEach(validateSecretName)` loop: first thrown error
propagates. -/
def validateAllNames : List String → Except String Unit
  | [] => Except.ok ()
  | n :: rest =>
    match validateSecretName n with
    | Except.error e => Except.error e
    | Except.ok _ => validateAllNames rest

/-- `[...new Set(names)]`: de-duplicate keeping first occurrences in order. -/
def dedupFirst : List String → List String
  | [] => []
  | x :: xs => x :: dedupFirst (xs.filter fun y => y != x)
termination_by l => l.length
decreasing_by
  simp only [List.length_cons]
  exact Nat.lt_succ_of_le (List.length_filter_le _ _)

/-- The batching loop `for (i = 0; i < n; i += limit) batches.push(slice(i, i+limit))`,
with the list length as fuel. -/
def chunkAux (k : ℕ) : ℕ → List String → List (List String)
  | _, [] => []
  | 0, l => [l]
  | fuel + 1, l => l.take k :: chunkAux k fuel (l.drop k)

/-- Partition a list into consecutive chunks of size `k`. -/
def chunkList (k : ℕ) (l : List String) : List (List String) :=
  chunkAux k l.length l

/-- One fetch inside a batch: record the value in `results` or the message in
`errors`. -/
def fetchStep (f : String → Except String String)
    (acc : List (String × String) × List (String × String)) (n : String) :
    List (String × String) × List (String × String) :=
  match f n with
  | Except.ok v => (acc.1 ++ [(n, v)], acc.2)
  | Except.error e => (acc.1, acc.2 ++ [(n, e)])

/-- The sequential-batches loop of `getMultipleSecrets`. -/
def runBatches (f : String → Except String String) (batches : List (List String)) :
    List (String × String) × List (String × String) :=
  batches.foldl (fun acc batch => batch.foldl (fetchStep f) acc) ([], [])

/-- The aggregate error message of `getMultipleSecrets`. -/
def aggregateMsg (errors : List (String × String)) : String :=
  "Failed to fetch " ++ toString errors.length ++ " secret(s): " ++
    String.intercalate "; " (errors.map fun p => p.1 ++ ": " ++ p.2)

/-- Result of `getMultipleSecrets`: the returned map or raised error, plus the
list of names for which an underlying `getSecretValue` call was issued. -/
structure MultiResult where
  result : Except String (List (String × String))
  fetched : List String
deriving DecidableEq

/-- `KmsService.getMultipleSecrets`, with the per-name fetch (`getSecretValue`)
abstracted as `f`. -/
def getMultipleSecrets (f : String → Except String String) : NamesArg → MultiResult
  | NamesArg.notAnArray => ⟨Except.error "Secret names must be an array", []⟩
  | NamesArg.arr names =>
    if names.isEmpty then ⟨Except.ok [], []⟩
    else
      match validateAllNames names with
      | Except.error e => ⟨Except.error e, []⟩
      | Except.ok _ =>
        let unique := dedupFirst names
        let limit := min unique.length 10
        let batches := chunkList limit unique
        let rs := runBatches f batches
        if rs.2.isEmpty then ⟨Except.ok rs.1, unique⟩
        else ⟨Except.error (aggregateMsg rs.2), unique⟩

/-- Names whose fetch succeeds, with their values (view used in theorems). -/
def successesOf (f : String → Except String String) (l : List String) :
    List (String × String) :=
  l.filterMap fun n =>
    match f n with
    | Except.ok v => some (n, v)
    | Except.error _ => none

/-- Names whose fetch fails, with their messages (view used in theorems). -/
def failuresOf (f : String → Except String String) (l : List String) :
    List (String × String) :=
  l.filterMap fun n =>
    match f n with
    | Except.ok _ => none
    | Except.error e => some (n, e)

/-- JSON values (the parse result consumed by `extractJsonPath` and
`JSON.stringify`). -/
inductive Js where
  | null
  | bool (b : Bool)
  | num (q : ℚ)
  | str (s : String)
  | arr (elems : List Js)
  | obj (fields : List (String × Js))

/-- First field with the given name (JavaScript objects have unique keys). -/
def lookupField (key : String) : List (String × Js) → Option Js
  | [] => none
  | f :: rest => if f.1 = key then some f.2 else lookupField key rest

/-- A canonical JavaScript array index: digits only, no superfluous leading
zero (`arr["00"]` is `undefined`). -/
def canonicalIndex (s : String) : Option ℕ :=
  if s.data ≠ [] ∧ s.data.all Char.isDigit ∧ (s.data.head? ≠ some '0' ∨ s = "0") then
    some (s.data.foldl (fun acc c => acc * 10 + (c.toNat - 48)) 0)
  else
    none

/-- JavaScript property access `current[key]` on an object or array value
(`none` is `undefined`). -/
def jsMember (j : Js) (key : String) : Option Js :=
  match j with
  | Js.obj fields => lookupField key fields
  | Js.arr elems =>
    if key = "length" then some (Js.num elems.length)
    else
      match canonicalIndex key with
      | some i => elems.get? i
      | none => none
  | _ => none

/-- Escaping of string content in `JSON.stringify` (the cases relevant to this
code base: quote, backslash and the common control characters). -/
def jsEscapeChar (c : Char) : List Char :=
  if c = '"' then ['\\', '"']
  else if c = '\\' then ['\\', '\\']
  else if c = '\n' then ['\\', 'n']
  else if c = '\t' then ['\\', 't']
  else if c = '\r' then ['\\', 'r']
  else [c]

/-- `JSON.stringify` of a string value. -/
def jsQuote (s : String) : String :=
  "\"" ++ (⟨s.data.flatMap jsEscapeChar⟩ : String) ++ "\""

mutual

/-- `JSON.stringify` over `Js` values. Formatting of non-integral numbers is
approximated by the rational's `toString`; no claim depends on it. -/
def jsStringify : Js → String
  | Js.null => "null"
  | Js.bool true => "true"
  | Js.bool false => "false"
  | Js.num q => if q.den = 1 then toString q.num else toString q
  | Js.str s => jsQuote s
  | Js.arr elems => "[" ++ String.intercalate "," (stringifyList elems) ++ "]"
  | Js.obj fields =>
      "\x7b" ++ String.intercalate "," (stringifyFields fields) ++ "\x7d"

/-- Stringify each element of an array. -/
def stringifyList : List Js → List String
  | [] => []
  | j :: rest => jsStringify j :: stringifyList rest

/-- Stringify each `"key":value` pair of an object. -/
def stringifyFields : List (String × Js) → List String
  | [] => []
  | f :: rest => (jsQuote f.1 ++ ":" ++ jsStringify f.2) :: stringifyFields rest

end

/-- The walk of `extractJsonPath` over the split path segments; `cur = none`
is JavaScript `undefined`. -/
def extractJsonPathAux (path : String) : List String → Option Js → Except String (Option Js)
  | [], cur => Except.ok cur
  | key :: rest, cur =>
    match cur with
    | none => Except.error ("Invalid JSON path: " ++ path)
    | some Js.null => Except.error ("Invalid JSON path: " ++ path)
    | some (Js.obj fields) => extractJsonPathAux path rest (jsMember (Js.obj fields) key)
    | some (Js.arr elems) => extractJsonPathAux path rest (jsMember (Js.arr elems) key)
    | some _ => Except.error ("Invalid JSON path: " ++ path)

/-- `KmsService.extractJsonPath`. -/
def extractJsonPath (data : Js) (path : String) : Except String String :=
  match extractJsonPathAux path (JsStr.splitOn path '.') (some data) with
  | Except.error e => Except.error e
  | Except.ok none => Except.error ("Path not found in JSON: " ++ path)
  | Except.ok (some (Js.str s)) => Except.ok s
  | Except.ok (some j) => Except.ok (jsStringify j)

/-- `SecretValidationRule` from `types.ts`; `pattern.test` and the custom
`validator` are abstract boolean predicates. -/
structure SecretValidationRule where
  required : Bool
  minLength : Option ℕ
  maxLength : Option ℕ
  pattern : Option (String → Bool)
  validator : Option (String → Bool)

/-- `KmsService.validateSecretValue`. -/
def validateSecretValue (value : String) (v : SecretValidationRule) :
    Except String Unit := do
  if v.required && (value = "" || (JsStr.trim value).length = 0) then
    throw "Secret value is required but empty"
  match v.minLength with
  | some m =>
    if m ≠ 0 ∧ value.length < m then
      throw ("Secret value length must be at least " ++ toString m)
  | none => pure ()
  match v.maxLength with
  | some m =>
    if m ≠ 0 ∧ m < value.length then
      throw ("Secret value length must not exceed " ++ toString m)
  | none => pure ()
  match v.pattern with
  | some test =>
    if test value = false then
      throw "Secret value does not match required pattern"
  | none => pure ()
  match v.validator with
  | some check =>
    if check value = false then
      throw "Secret value failed custom validation"
  | none => pure ()

/-- `SecretConfig` from `types.ts` (the `alias` field is called `aliasName`
here). -/
structure SecretConfig where
  name : String
  aliasName : Option String
  required : Bool
  defaultValue : Option String
  isJson : Bool
  jsonPath : Option String
  validation : Option SecretValidationRule

/-- JavaScript truthiness of an optional string (`undefined` and `""` falsy). -/
def strTruthy (x : Option String) : Bool :=
  match x with
  | none => false
  | some s => s != ""

/-- `KmsService.getSecretValueAsJson`, with raw fetch `f` and `JSON.parse`
abstracted (`parse s = .error m` models a parse exception with message `m`). -/
def getSecretValueAsJson (f : String → Except String String)
    (parse : String → Except String Js) (secretName : String) : Except String Js :=
  match f secretName with
  | Except.error e => Except.error e
  | Except.ok secretData =>
    if secretData = "" || (JsStr.trim secretData).length = 0 then
      Except.error ("Secret " ++ secretName ++ " is empty or contains only whitespace")
    else
      match parse secretData with
      | Except.ok j => Except.ok j
      | Except.error perr =>
        if JsStr.strContains perr "Unexpected token" || JsStr.strContains perr "JSON" then
          Except.error ("Invalid JSON format in secret " ++ secretName ++ ": " ++ perr)
        else
          Except.error ("Failed to parse secret " ++ secretName ++ " as JSON: " ++ perr)

/-- The `try` body of `processSecretConfig`: fetch (plain or JSON with
optional path extraction), then apply the validation rules. -/
def processSecretValue (f : String → Except String String)
    (parse : String → Except String Js) (config : SecretConfig) :
    Except String String := do
  let secretValue ←
    if config.isJson then do
      let jsonData ← getSecretValueAsJson f parse config.name
      if strTruthy config.jsonPath then
        extractJsonPath jsonData (config.jsonPath.getD "")
      else
        pure (jsStringify jsonData)
    else
      f config.name
  match config.validation with
  | some v => validateSecretValue secretValue v
  | none => pure ()
  pure secretValue

/-- `KmsService.processSecretConfig`: on failure of the body, an optional
entry with a `defaultValue` gets the default recorded as success; any other
failure is rethrown. Returns the `(alias, value)` pair stored in `success`. -/
def processSecretConfig (f : String → Except String String)
    (parse : String → Except String Js) (key : String) (config : SecretConfig) :
    Except String (String × String) :=
  let aliasKey := Cache.jsOrS config.aliasName key
  match processSecretValue f parse config with
  | Except.ok v => Except.ok (aliasKey, v)
  | Except.error e =>
    if config.required = false ∧ config.defaultValue.isSome then
      Except.ok (aliasKey, config.defaultValue.getD "")
    else
      Except.error e

/-- The message test of `getSecretsWithConfig` that classifies an error as a
validation error to be rethrown immediately for required entries. -/
def isValidationClassMsg (msg : String) : Bool :=
  JsStr.strContains msg "validation" || JsStr.strContains msg "length must be" ||
    JsStr.strContains msg "does not match" || JsStr.strContains msg "Path not found" ||
    JsStr.strContains msg "Invalid JSON path"

/-- `result[key] = value` on a plain object, modelled as an association list
in insertion order. -/
def amapSet (k v : String) : List (String × String) → List (String × String)
  | [] => [(k, v)]
  | e :: rest => if e.1 = k then (k, v) :: rest else e :: amapSet k v rest

/-- `obj[key]` on a plain object. -/
def amapGet (k : String) : List (String × String) → Option String
  | [] => none
  | e :: rest => if e.1 = k then some e.2 else amapGet k rest

/-- The `for (const [key, config] of configEntries)` loop of
`getSecretsWithConfig`, carrying the `success` and `failed` objects. -/
def getSecretsWithConfigLoop (f : String → Except String String)
    (parse : String → Except String Js) :
    List (String × SecretConfig) → List (String × String) → List (String × String) →
      Except String (List (String × String) × List (String × String))
  | [], success, failed => Except.ok (success, failed)
  | (key, config) :: rest, success, failed =>
    match processSecretConfig f parse key config with
    | Except.ok (aliasKey, v) =>
        getSecretsWithConfigLoop f parse rest (amapSet aliasKey v success) failed
    | Except.error e =>
        if config.required then
          if isValidationClassMsg e then
            Except.error e
          else
            getSecretsWithConfigLoop f parse rest success (amapSet key e failed)
        else
          getSecretsWithConfigLoop f parse rest success (amapSet key e failed)

/-- `BatchSecretResult` from `types.ts`. -/
structure BatchSecretResult where
  success : List (String × String)
  failed : List (String × String)
  total : ℕ
  successCount : ℕ
  failureCount : ℕ
deriving DecidableEq, Repr

/-- `KmsService.getSecretsWithConfig`. -/
def getSecretsWithConfig (f : String → Except String String)
    (parse : String → Except String Js) (entries : List (String × SecretConfig)) :
    Except String BatchSecretResult :=
  if entries.isEmpty then
    Except.ok ⟨[], [], 0, 0, 0⟩
  else
    match getSecretsWithConfigLoop f parse entries [] [] with
    | Except.error e => Except.error e
    | Except.ok (success, failed) =>
      let requiredSecrets := entries.filter fun p => p.2.required
      let failedRequired := requiredSecrets.filter fun p =>
        match amapGet p.1 failed with
        | some m => m != ""
        | none => false
      if failedRequired.isEmpty then
        Except.ok ⟨success, failed, entries.length, success.length, failed.length⟩
      else
        Except.error
          ("Failed to fetch required secrets: " ++
            String.intercalate ", " (failedRequired.map Prod.fst))

end Kms

namespace Cache

variable {α : Type}

theorem mapGet_mapSet_self (k : String) (v : Item α) (l : List (String × Item α)) :
    mapGet k (mapSet k v l) = some v := by
  induction l with
  | nil => simp [mapGet, mapSet]
  | cons e rest ih =>
      by_cases h : e.1 = k <;> simp [mapGet, mapSet, h, ih]

theorem mapGet_eq_none_iff (k : String) (l : List (String × Item α)) :
    mapGet k l = none ↔ ∀ e ∈ l, e.1 ≠ k := by
  induction l with
  | nil => simp [mapGet]
  | cons e rest ih =>
      by_cases h : e.1 = k <;> simp [mapGet, h, ih]

theorem length_mapSet_of_none (k : String) (v : Item α) (l : List (String × Item α))
    (h : mapGet k l = none) : (mapSet k v l).length = l.length + 1 := by
  induction l with
  | nil => simp [mapSet]
  | cons e rest ih =>
      rw [mapGet_eq_none_iff] at h
      have he : e.1 ≠ k := h e (by simp)
      have hrest : mapGet k rest = none := by
        rw [mapGet_eq_none_iff]
        exact fun e' he' => h e' (by simp [he'])
      simp [mapSet, he, ih hrest]

theorem length_removeKey_of_mem (k : String) (l : List (String × Item α))
    (h : ∃ e ∈ l, e.1 = k) : (removeKey k l).length + 1 = l.length := by
  induction l with
  | nil => simp at h
  | cons e rest ih =>
      by_cases he : e.1 = k
      · simp [removeKey, he]
      · rcases h with ⟨e', he', hk⟩
        rcases List.mem_cons.mp he' with rfl | hmem
        · exact absurd hk he
        · simp [removeKey, he, ih ⟨e', hmem, hk⟩]

theorem mapGet_removeKey_of_none (k k0 : String) (l : List (String × Item α))
    (h : mapGet k l = none) : mapGet k (removeKey k0 l) = none := by
  rw [mapGet_eq_none_iff] at h ⊢
  intro e he
  induction l with
  | nil => simp [removeKey] at he
  | cons e' rest ih =>
      by_cases h0 : e'.1 = k0
      · exact h e (by simp [removeKey, h0] at he; simp [he])
      · simp [removeKey, h0] at he
        rcases he with rfl | hmem
        · exact h e (by simp)
        · exact ih (fun e'' he'' => h e'' (by simp [he''])) hmem

theorem scanFold_snd_le (l : List (String × Item α)) (acc : String × ℚ) :
    (l.foldl scanStep acc).2 ≤ acc.2 ∧
      ∀ e ∈ l, (l.foldl scanStep acc).2 ≤ e.2.lastAccessedAt := by
  induction l generalizing acc with
  | nil => simp
  | cons e rest ih =>
      rcases ih (scanStep acc e) with ⟨h1, h2⟩
      by_cases h : e.2.lastAccessedAt < acc.2
      · refine ⟨?_, ?_⟩
        · calc (List.foldl scanStep (scanStep acc e) rest).2
              ≤ (scanStep acc e).2 := h1
            _ ≤ acc.2 := by simp [scanStep, h]; exact le_of_lt h
        · intro e' he'
          rcases List.mem_cons.mp he' with rfl | hmem
          · simpa [scanStep, h] using h1
          · exact h2 e' hmem
      · refine ⟨?_, ?_⟩
        · simpa [scanStep, h] using h1
        · intro e' he'
          rcases List.mem_cons.mp he' with rfl | hmem
          · exact le_trans h1 (by simp [scanStep, h]; exact le_of_not_lt h)
          · exact h2 e' hmem

theorem scanFold_fst_mem (l : List (String × Item α)) (acc : String × ℚ) :
    l.foldl scanStep acc = acc ∨
      ∃ e ∈ l, e.1 = (l.foldl scanStep acc).1 ∧
        e.2.lastAccessedAt = (l.foldl scanStep acc).2 := by
  induction l generalizing acc with
  | nil => simp
  | cons e rest ih =>
      simp only [List.foldl_cons]
      by_cases h : e.2.lastAccessedAt < acc.2
      · have hstep : scanStep acc e = (e.1, e.2.lastAccessedAt) := by simp [scanStep, h]
        rw [hstep]
        right
        rcases ih (e.1, e.2.lastAccessedAt) with heq | ⟨e', he', h1, h2⟩
        · exact ⟨e, by simp, by rw [heq], by rw [heq]⟩
        · exact ⟨e', List.mem_cons_of_mem _ he', h1, h2⟩
      · have hstep : scanStep acc e = acc := by simp [scanStep, h]
        rw [hstep]
        rcases ih acc with heq | ⟨e', he', h1, h2⟩
        · left
          exact heq
        · right
          exact ⟨e', List.mem_cons_of_mem _ he', h1, h2⟩

theorem scanFold_fst_ne (l : List (String × Item α)) (acc : String × ℚ)
    (hacc : acc.1 ≠ "") (hkeys : ∀ e ∈ l, e.1 ≠ "") :
    (l.foldl scanStep acc).1 ≠ "" := by
  induction l generalizing acc with
  | nil => simpa
  | cons e rest ih =>
      have hk : e.1 ≠ "" := hkeys e (by simp)
      have hrest : ∀ e' ∈ rest, e'.1 ≠ "" := fun e' he' => hkeys e' (by simp [he'])
      by_cases h : e.2.lastAccessedAt < acc.2
      · have hstep : scanStep acc e = (e.1, e.2.lastAccessedAt) := by simp [scanStep, h]
        simpa [List.foldl_cons, hstep] using ih (e.1, e.2.lastAccessedAt) hk hrest
      · have hstep : scanStep acc e = acc := by simp [scanStep, h]
        simpa [List.foldl_cons, hstep] using ih acc hacc hrest

theorem scanFold_fst_ne_of_lt (l : List (String × Item α)) (acc : String × ℚ)
    (hacc : acc.1 = "") (hkeys : ∀ e ∈ l, e.1 ≠ "")
    (hw : ∃ e ∈ l, e.2.lastAccessedAt < acc.2) :
    (l.foldl scanStep acc).1 ≠ "" := by
  induction l generalizing acc with
  | nil => simp at hw
  | cons e rest ih =>
      have hk : e.1 ≠ "" := hkeys e (by simp)
      have hrest : ∀ e' ∈ rest, e'.1 ≠ "" := fun e' he' => hkeys e' (by simp [he'])
      by_cases h : e.2.lastAccessedAt < acc.2
      · have hstep : scanStep acc e = (e.1, e.2.lastAccessedAt) := by simp [scanStep, h]
        simpa [List.foldl_cons, hstep] using
          scanFold_fst_ne rest (e.1, e.2.lastAccessedAt) hk hrest
      · have hstep : scanStep acc e = acc := by simp [scanStep, h]
        rcases hw with ⟨e', he', hlt⟩
        rcases List.mem_cons.mp he' with rfl | hmem
        · exact absurd hlt h
        · simpa [List.foldl_cons, hstep] using ih acc hacc hrest ⟨e', hmem, hlt⟩

theorem scanFold_eq_self_of_ge (l : List (String × Item α)) (acc : String × ℚ)
    (h : ∀ e ∈ l, ¬e.2.lastAccessedAt < acc.2) :
    l.foldl scanStep acc = acc := by
  induction l with
  | nil => simp
  | cons e rest ih =>
      have hstep : scanStep acc e = acc := by simp [scanStep, h e (by simp)]
      simp only [List.foldl_cons, hstep]
      exact ih fun e' he' => h e' (by simp [he'])


end Cache

example :
    (Cache.setOp (Cache.mkConfig true none (some 1) none) ⟨[], 0, 0⟩ 100 "a" "va"
        none).1.cache.length = 1 := by
  simp [Cache.setOp, Cache.mkConfig, Cache.jsOrQ, Cache.jsOrN, Cache.jsOrS,
    Cache.generateKey, Cache.mapGet, Cache.mapSet, Cache.evictLeastRecentlyUsed,
    Cache.scanOldest, Cache.scanStep]

example :
    (Cache.setOp (Cache.mkConfig true none (some 1) none)
        (Cache.setOp (Cache.mkConfig true none (some 1) none) ⟨[], 0, 0⟩ 100 "a" "va"
          none).1 100 "b" "vb" none).1.cache.length = 2 := by
  simp [Cache.setOp, Cache.mkConfig, Cache.jsOrQ, Cache.jsOrN, Cache.jsOrS,
    Cache.generateKey, Cache.mapGet, Cache.mapSet, Cache.evictLeastRecentlyUsed,
    Cache.scanOldest, Cache.scanStep]

example : Kms.isNonRetryableError "Secret not found" = true := by decide

example : Kms.isNonRetryableError "network timeout" = false := by decide

example : Kms.validateSecretName "app/db.url" = Except.ok () := by decide

example :
    Kms.executeWithRetryDefaults (fun _ => (Except.error "Secret not found" : Except String String))
      (fun _ => 0) = ⟨Except.error "Secret not found", 1, []⟩ := by
  decide

namespace Cache

theorem removeKey_sublist (k : String) (l : List (String × Item α)) :
    (removeKey k l).Sublist l := by
  induction l with
  | nil => simp [removeKey]
  | cons e rest ih =>
      by_cases h : e.1 = k
      · simp [removeKey, h]
      · simpa [removeKey, h] using List.Sublist.cons₂ e ih

theorem mem_keys_mapSet (x k : String) (v : Item α) (l : List (String × Item α)) :
    x ∈ (mapSet k v l).map Prod.fst ↔ x = k ∨ x ∈ l.map Prod.fst := by
  induction l with
  | nil => simp [mapSet]
  | cons e rest ih =>
      by_cases h : e.1 = k
      · simp [mapSet, h]
      · simp [mapSet, h, ih]
        tauto

theorem nodup_keys_mapSet (k : String) (v : Item α) (l : List (String × Item α))
    (h : (l.map Prod.fst).Nodup) : ((mapSet k v l).map Prod.fst).Nodup := by
  induction l with
  | nil => simp [mapSet]
  | cons e rest ih =>
      simp only [List.map_cons, List.nodup_cons] at h
      by_cases he : e.1 = k
      · simp only [mapSet, he, if_true, List.map_cons, List.nodup_cons]
        exact ⟨by rw [← he]; exact h.1, h.2⟩
      · simp only [mapSet, he, if_false, List.map_cons, List.nodup_cons]
        refine ⟨?_, ih h.2⟩
        rw [mem_keys_mapSet]
        rintro (rfl | hmem)
        · exact he rfl
        · exact h.1 hmem

theorem mapGet_removeKey_self (k : String) (l : List (String × Item α))
    (h : (l.map Prod.fst).Nodup) : mapGet k (removeKey k l) = none := by
  induction l with
  | nil => simp [removeKey, mapGet]
  | cons e rest ih =>
      simp only [List.map_cons, List.nodup_cons] at h
      by_cases he : e.1 = k
      · simp only [removeKey, he, if_true]
        rw [mapGet_eq_none_iff]
        intro e' he' hk
        exact h.1 (by rw [he, ← hk]; exact List.mem_map.mpr ⟨e', he', rfl⟩)
      · simpa [removeKey, he, mapGet] using ih h.2

end Cache

/-- C9: `emitEvent` invokes every registered listener exactly once, in
registration order, never lets a listener's exception escape to the caller of
the triggering cache operation, and a throwing listener does not prevent the
remaining listeners from being invoked (the invocation trace always equals the
full listener list and the call always returns normally). -/
theorem claim_C9 {L : Type} (behavior : L → Except String Unit) (listeners : List L) :
    Cache.emitEvent behavior listeners =
      Except.ok (listeners, Cache.warnLogs behavior listeners) := by
  induction listeners with
  | nil => simp [Cache.emitEvent, Cache.warnLogs]
  | cons l rest ih =>
      cases hb : behavior l <;>
        simp [Cache.emitEvent, Cache.warnLogs, hb, ih, List.filterMap_cons]

/-- C7: `getStats` reports a hit rate equal to `hitCount / (hitCount + missCount)`
rounded to four decimal places, and exactly `0` when no requests were counted. -/
theorem claim_C7 (strf : α → Option String) (st : Cache.State α) :
    (st.hitCount + st.missCount = 0 → (Cache.getStats strf st).hitRate = 0) ∧
    (0 < st.hitCount + st.missCount →
      (Cache.getStats strf st).hitRate =
        Cache.round4 ((st.hitCount : ℚ) / ((st.hitCount : ℚ) + (st.missCount : ℚ)))) := by
  constructor
  · intro h
    simp [Cache.getStats, h, Cache.round4]
  · intro h
    simp only [Cache.getStats, h, if_pos h]
    norm_num [Cache.round4]

/-- C7 witness: a state with one hit and one miss has hit rate
`round4 (1/2)`. -/
theorem claim_C7_witness :
    0 < (1 : ℕ) + 1 ∧
      (Cache.getStats (fun s : String => some s) ⟨[], 1, 1⟩).hitRate =
        Cache.round4 (((1 : ℕ) : ℚ) / (((1 : ℕ) : ℚ) + ((1 : ℕ) : ℚ))) :=
  ⟨by norm_num, (claim_C7 (fun s : String => some s) ⟨[], 1, 1⟩).2 (by norm_num)⟩

/-- C8 counterexample: a state holding one entry that expired at time `5`
still reports `totalKeys = 1` at time `10`, while the number of live entries
in the sense of the claim is `0`. -/
theorem claim_C8_counterexample :
    (Cache.getStats (fun s : String => some s)
        ⟨[("kms_secret:x", ⟨"v", 0, 5, 0, 0⟩)], 0, 0⟩).totalKeys = 1 ∧
      Cache.specLiveKeyCount
        (⟨[("kms_secret:x", ⟨"v", 0, 5, 0, 0⟩)], 0, 0⟩ : Cache.State String) 10 = 0 := by
  constructor
  · simp [Cache.getStats]
  · norm_num [Cache.specLiveKeyCount]

/-- C8 amended: `getStats.totalKeys` counts every physically resident entry,
expired-but-not-yet-cleaned entries included: at any time `now` it equals the
live count plus the count of resident expired entries. -/
theorem claim_C8_amended (strf : α → Option String) (st : Cache.State α) (now : ℚ) :
    (Cache.getStats strf st).totalKeys =
      Cache.specLiveKeyCount st now + Cache.expiredKeyCount st now := by
  simp only [Cache.getStats, Cache.specLiveKeyCount, Cache.expiredKeyCount]
  induction st.cache with
  | nil => simp
  | cons e rest ih =>
      by_cases h : now ≤ e.2.expiresAt
      · simp [List.filter_cons, h, not_lt.mpr h, ih]
        omega
      · simp [List.filter_cons, h, not_le.mp h, ih]
        omega

/-- C10: an explicit TTL override of `0` is falsy in `customTtl || this.config.ttl`,
so `set(k, v, 0)` behaves exactly like `set(k, v)` with the default TTL: the
stored entry expires `ttl` seconds (times 1000 ms) after insertion rather
than immediately. -/
theorem claim_C10 (cfg : Cache.Config) (st : Cache.State α) (now : ℚ) (key : String)
    (v : α) (hen : cfg.enabled = true) :
    Cache.setOp cfg st now key v (some 0) = Cache.setOp cfg st now key v none ∧
      Cache.mapGet (Cache.generateKey cfg key)
          (Cache.setOp cfg st now key v (some 0)).1.cache =
        some ⟨v, now, now + cfg.ttl * 1000, 0, now⟩ := by
  have hq : Cache.jsOrQ (some 0) cfg.ttl = cfg.ttl := by simp [Cache.jsOrQ]
  constructor
  · simp [Cache.setOp, Cache.jsOrQ]
  · simp only [Cache.setOp, hen, Bool.true_eq_false, if_false, hq]
    split <;> exact Cache.mapGet_mapSet_self _ _ _

/-- C10 witness: with the default configuration, `set("k", "v", 0)` at time
`50` equals `set("k", "v")` and stores an entry expiring at `50 + 300 * 1000`. -/
theorem claim_C10_witness :
    Cache.setOp (Cache.mkConfig true none none none) (⟨[], 0, 0⟩ : Cache.State String)
        50 "k" "v" (some 0) =
      Cache.setOp (Cache.mkConfig true none none none) ⟨[], 0, 0⟩ 50 "k" "v" none ∧
      Cache.mapGet (Cache.generateKey (Cache.mkConfig true none none none) "k")
          (Cache.setOp (Cache.mkConfig true none none none) ⟨[], 0, 0⟩ 50 "k" "v"
            (some 0)).1.cache =
        some ⟨"v", 50, 50 + (Cache.mkConfig true none none none).ttl * 1000, 0, 50⟩ :=
  claim_C10 (Cache.mkConfig true none none none) ⟨[], 0, 0⟩ 50 "k" "v" rfl

namespace Cache

theorem setOp_enabled_cache (cfg : Config) (st : State α) (now : ℚ) (key : String)
    (v : α) (c : Option ℚ) (hen : cfg.enabled = true) :
    (setOp cfg st now key v c).1.cache =
      mapSet (generateKey cfg key) ⟨v, now, now + jsOrQ c cfg.ttl * 1000, 0, now⟩
        (if decide (cfg.maxSize ≤ st.cache.length) &&
            (mapGet (generateKey cfg key) st.cache).isNone then
          (evictLeastRecentlyUsed cfg st now).1.cache
        else
          st.cache) := by
  simp only [setOp, hen, Bool.true_eq_false, if_false]
  split <;> rfl

theorem setOp_enabled_counters (cfg : Config) (st : State α) (now : ℚ) (key : String)
    (v : α) (c : Option ℚ) (hen : cfg.enabled = true) :
    (setOp cfg st now key v c).1.hitCount = st.hitCount ∧
      (setOp cfg st now key v c).1.missCount = st.missCount := by
  simp only [setOp, hen, Bool.true_eq_false, if_false]
  split
  · simp only [evictLeastRecentlyUsed]
    split <;> exact ⟨rfl, rfl⟩
  · exact ⟨rfl, rfl⟩

theorem getOp_found (cfg : Config) (st : State α) (now : ℚ) (key : String)
    (item : Item α) (hen : cfg.enabled = true)
    (hfind : mapGet (generateKey cfg key) st.cache = some item) :
    getOp cfg st now key =
      if item.expiresAt < now then
        (none,
          { st with
              cache := removeKey (generateKey cfg key) st.cache,
              missCount := st.missCount + 1 },
          [(EventType.expire, key, none)])
      else
        (some item.value,
          { st with
              cache := mapSet (generateKey cfg key)
                { item with accessCount := item.accessCount + 1, lastAccessedAt := now }
                st.cache,
              hitCount := st.hitCount + 1 },
          [(EventType.hit, key, some item.value)]) := by
  simp only [getOp, hen, Bool.true_eq_false, if_false, hfind, isExpired]
  split <;> rename_i h
  · rw [if_pos (of_decide_eq_true h)]
  · rw [if_neg (of_decide_eq_false (Bool.of_not_eq_true h))]

theorem getOp_missing (cfg : Config) (st : State α) (now : ℚ) (key : String)
    (hen : cfg.enabled = true)
    (hfind : mapGet (generateKey cfg key) st.cache = none) :
    getOp cfg st now key =
      (none, { st with missCount := st.missCount + 1 }, [(EventType.miss, key, none)]) := by
  simp only [getOp, hen, Bool.true_eq_false, if_false, hfind]

theorem setOp_nodup_keys (cfg : Config) (st : State α) (now : ℚ) (key : String)
    (v : α) (c : Option ℚ) (h : (st.cache.map Prod.fst).Nodup) :
    ((setOp cfg st now key v c).1.cache.map Prod.fst).Nodup := by
  by_cases hen : cfg.enabled = true
  · rw [setOp_enabled_cache cfg st now key v c hen]
    apply nodup_keys_mapSet
    split
    · simp only [evictLeastRecentlyUsed]
      split
      · exact ((removeKey_sublist _ _).map Prod.fst).nodup h
      · exact h
    · exact h
  · have hfalse : cfg.enabled = false := by
      revert hen
      cases cfg.enabled <;> simp
    simpa [setOp, hfalse] using h

end Cache

/-- C5: on an enabled cache, `set(k, v, t)` with `t > 0` followed by an
immediate `get(k)` returns `v`, increments the hit counter, bumps the entry's
`accessCount` to 1 and `lastAccessedAt` to the access time, and emits a `hit`
event; a `get(k)` performed after `t` seconds have elapsed removes the entry,
increments the miss counter, emits an `expire` event and returns absent; a
`get` of a key that was never set increments the miss counter, emits a `miss`
event and returns absent. -/
theorem claim_C5 (cfg : Cache.Config) (st : Cache.State α) (now : ℚ) (k : String)
    (v : α) (t : ℚ) (hen : cfg.enabled = true) (ht : 0 < t)
    (hnd : (st.cache.map Prod.fst).Nodup) :
    (∃ st2,
      Cache.getOp cfg (Cache.setOp cfg st now k v (some t)).1 now k =
          (some v, st2, [(Cache.EventType.hit, k, some v)]) ∧
        st2.hitCount = st.hitCount + 1 ∧
        Cache.mapGet (Cache.generateKey cfg k) st2.cache =
          some ⟨v, now, now + t * 1000, 1, now⟩) ∧
    (∀ now2, now + t * 1000 < now2 →
      ∃ st3,
        Cache.getOp cfg (Cache.setOp cfg st now k v (some t)).1 now2 k =
            (none, st3, [(Cache.EventType.expire, k, none)]) ∧
          st3.missCount = st.missCount + 1 ∧
          Cache.mapGet (Cache.generateKey cfg k) st3.cache = none) ∧
    (Cache.mapGet (Cache.generateKey cfg k) st.cache = none →
      Cache.getOp cfg st now k =
        (none, { st with missCount := st.missCount + 1 },
          [(Cache.EventType.miss, k, none)])) := by
  have hq : Cache.jsOrQ (some t) cfg.ttl = t := by
    simp [Cache.jsOrQ, ne_of_gt ht]
  have hcache := Cache.setOp_enabled_cache cfg st now k v (some t) hen
  rw [hq] at hcache
  have hfind :
      Cache.mapGet (Cache.generateKey cfg k) (Cache.setOp cfg st now k v (some t)).1.cache =
        some ⟨v, now, now + t * 1000, 0, now⟩ := by
    rw [hcache]
    exact Cache.mapGet_mapSet_self _ _ _
  have hcnt := Cache.setOp_enabled_counters cfg st now k v (some t) hen
  refine ⟨?_, ?_, ?_⟩
  · have hget := Cache.getOp_found cfg (Cache.setOp cfg st now k v (some t)).1 now k
      ⟨v, now, now + t * 1000, 0, now⟩ hen hfind
    rw [if_neg (by simp; positivity)] at hget
    refine ⟨_, hget, ?_, ?_⟩
    · simp [hcnt.1]
    · exact Cache.mapGet_mapSet_self _ _ _
  · intro now2 h2
    have hget := Cache.getOp_found cfg (Cache.setOp cfg st now k v (some t)).1 now2 k
      ⟨v, now, now + t * 1000, 0, now⟩ hen hfind
    rw [if_pos (by simpa using h2)] at hget
    refine ⟨_, hget, ?_, ?_⟩
    · simp [hcnt.2]
    · simp only [hcache]
      apply Cache.mapGet_removeKey_self
      apply Cache.nodup_keys_mapSet
      split
      · simp only [Cache.evictLeastRecentlyUsed]
        split
        · exact ((Cache.removeKey_sublist _ _).map Prod.fst).nodup hnd
        · exact hnd
      · exact hnd
  · intro hmiss
    exact Cache.getOp_missing cfg st now k hen hmiss

/-- C5 witness: with the default configuration, `set("k", "v", 2)` at time
`100` then `get("k")` at time `100` hits with value `"v"`; `get("k")` at time
`2101` expires the entry; `get("z")` on the empty store misses. -/
theorem claim_C5_witness :
    (∃ st2,
      Cache.getOp (Cache.mkConfig true none none none)
          (Cache.setOp (Cache.mkConfig true none none none)
            (⟨[], 0, 0⟩ : Cache.State String) 100 "k" "v" (some 2)).1 100 "k" =
          (some "v", st2, [(Cache.EventType.hit, "k", some "v")]) ∧
        st2.hitCount = 0 + 1 ∧
        Cache.mapGet (Cache.generateKey (Cache.mkConfig true none none none) "k")
            st2.cache =
          some ⟨"v", 100, 100 + 2 * 1000, 1, 100⟩) ∧
    (∃ st3,
      Cache.getOp (Cache.mkConfig true none none none)
          (Cache.setOp (Cache.mkConfig true none none none)
            (⟨[], 0, 0⟩ : Cache.State String) 100 "k" "v" (some 2)).1 2101 "k" =
          (none, st3, [(Cache.EventType.expire, "k", none)]) ∧
        st3.missCount = 0 + 1 ∧
        Cache.mapGet (Cache.generateKey (Cache.mkConfig true none none none) "k")
            st3.cache = none) := by
  have h := claim_C5 (Cache.mkConfig true none none none)
    (⟨[], 0, 0⟩ : Cache.State String) 100 "k" "v" 2 rfl (by norm_num) (by simp)
  exact ⟨h.1, h.2.1 2101 (by norm_num)⟩

/-- C1 counterexample: with `maxSize = 1`, after `set("a", ...)` at time `100`,
a `set("b", ...)` at the same millisecond inserts the second distinct key
without evicting anything (the eviction scan starts at `oldestTime = now` and
compares strictly, so an entry last accessed at `now` is never selected): the
store ends with 2 entries, exceeding `maxSize`, and no `delete` event is
emitted. -/
theorem claim_C1_counterexample :
    (Cache.mkConfig true none (some 1) none).maxSize = 1 ∧
      (Cache.setOp (Cache.mkConfig true none (some 1) none)
          (Cache.setOp (Cache.mkConfig true none (some 1) none)
            (⟨[], 0, 0⟩ : Cache.State String) 100 "a" "va" none).1
          100 "b" "vb" none).1.cache.length = 2 ∧
      (Cache.setOp (Cache.mkConfig true none (some 1) none)
          (Cache.setOp (Cache.mkConfig true none (some 1) none)
            (⟨[], 0, 0⟩ : Cache.State String) 100 "a" "va" none).1
          100 "b" "vb" none).2 =
        [(Cache.EventType.set, "b", some "vb")] := by
  refine ⟨rfl, ?_, ?_⟩ <;>
    simp [Cache.setOp, Cache.mkConfig, Cache.jsOrQ, Cache.jsOrN, Cache.jsOrS,
      Cache.generateKey, Cache.mapGet, Cache.mapSet, Cache.evictLeastRecentlyUsed,
      Cache.scanOldest, Cache.scanStep]

/-- C1 amended: when `set` is called on an enabled cache with a new key while
the store is at or above `maxSize`, exactly one entry is evicted before the
insertion provided some resident entry was last accessed strictly before the
current time (the store size is then preserved); if every resident entry's
`lastAccessedAt` is at or after the current time, no entry is evicted and the
store grows to `maxSize + 1` entries. -/
theorem claim_C1_amended (cfg : Cache.Config) (st : Cache.State α) (now : ℚ)
    (k : String) (v : α) (c : Option ℚ) (hen : cfg.enabled = true)
    (hfull : cfg.maxSize ≤ st.cache.length)
    (hnew : Cache.mapGet (Cache.generateKey cfg k) st.cache = none)
    (hkeys : ∀ e ∈ st.cache, e.1 ≠ "") :
    ((∃ e ∈ st.cache, e.2.lastAccessedAt < now) →
        (Cache.setOp cfg st now k v c).1.cache.length = st.cache.length) ∧
      ((∀ e ∈ st.cache, now ≤ e.2.lastAccessedAt) →
        (Cache.setOp cfg st now k v c).1.cache.length = st.cache.length + 1) := by
  have hcache := Cache.setOp_enabled_cache cfg st now k v c hen
  have hcond :
      (decide (cfg.maxSize ≤ st.cache.length) &&
        (Cache.mapGet (Cache.generateKey cfg k) st.cache).isNone) = true := by
    simp [hfull, hnew]
  rw [hcond, if_pos rfl] at hcache
  constructor
  · rintro ⟨e, he, hlt⟩
    have hne : (Cache.scanOldest now st.cache).1 ≠ "" :=
      Cache.scanFold_fst_ne_of_lt st.cache ("", now) rfl hkeys ⟨e, he, hlt⟩
    have hmem : ∃ e' ∈ st.cache, e'.1 = (Cache.scanOldest now st.cache).1 := by
      rcases Cache.scanFold_fst_mem st.cache ("", now) with heq | ⟨e', he', h1, _⟩
      · exact absurd (congrArg Prod.fst heq) hne
      · exact ⟨e', he', h1⟩
    rw [hcache]
    simp only [Cache.evictLeastRecentlyUsed, if_pos hne]
    rw [Cache.length_mapSet_of_none _ _ _
      (Cache.mapGet_removeKey_of_none _ _ _ hnew)]
    exact Cache.length_removeKey_of_mem _ _ hmem
  · intro hge
    have hscan : Cache.scanOldest now st.cache = ("", now) :=
      Cache.scanFold_eq_self_of_ge st.cache ("", now)
        (fun e he => not_lt.mpr (hge e he))
    rw [hcache]
    simp only [Cache.evictLeastRecentlyUsed, hscan, ne_eq, not_true_eq_false, if_false]
    exact Cache.length_mapSet_of_none _ _ _ hnew

/-- C1 amended, witness: one resident entry last accessed at time `50`; a
`set` of a new key at time `100` on the full store evicts it, preserving the
store size. -/
theorem claim_C1_amended_witness :
    (Cache.setOp (Cache.mkConfig true none (some 1) none)
        (⟨[("kms_secret:a", ⟨"va", 50, 300050, 0, 50⟩)], 0, 0⟩ : Cache.State String)
        100 "b" "vb" none).1.cache.length =
      (⟨[("kms_secret:a", ⟨"va", 50, 300050, 0, 50⟩)], 0, 0⟩ :
        Cache.State String).cache.length := by
  have h := (claim_C1_amended (Cache.mkConfig true none (some 1) none)
    (⟨[("kms_secret:a", ⟨"va", 50, 300050, 0, 50⟩)], 0, 0⟩ : Cache.State String)
    100 "b" "vb" none rfl (by norm_num [Cache.mkConfig, Cache.jsOrN])
    (by simp [Cache.mapGet, Cache.generateKey, Cache.mkConfig, Cache.jsOrS])
    (by simp)).1
  exact h ⟨("kms_secret:a", ⟨"va", 50, 300050, 0, 50⟩), by simp, by norm_num⟩

/-- C4: whenever a capacity-triggered eviction occurs during `set` (the store
is at or above `maxSize`, the key is new, and the scan selected a victim),
the evicted entry has the globally smallest `lastAccessedAt` among all
resident entries at that moment, and a `delete` event carrying the evicted
entry's prefix-stripped logical key is emitted before the `set` event. -/
theorem claim_C4 (cfg : Cache.Config) (st : Cache.State α) (now : ℚ)
    (k : String) (v : α) (c : Option ℚ) (hen : cfg.enabled = true)
    (hfull : cfg.maxSize ≤ st.cache.length)
    (hnew : Cache.mapGet (Cache.generateKey cfg k) st.cache = none)
    (hev : (Cache.scanOldest now st.cache).1 ≠ "") :
    ∃ item : Cache.Item α,
      ((Cache.scanOldest now st.cache).1, item) ∈ st.cache ∧
        (∀ e ∈ st.cache, item.lastAccessedAt ≤ e.2.lastAccessedAt) ∧
        (Cache.setOp cfg st now k v c).2 =
          [(Cache.EventType.delete,
              Cache.stripKey cfg (Cache.scanOldest now st.cache).1, none),
            (Cache.EventType.set, k, some v)] := by
  rcases Cache.scanFold_fst_mem st.cache ("", now) with heq | ⟨e, he, h1, h2⟩
  · exact absurd (congrArg Prod.fst heq) hev
  · have h1' : e.1 = (Cache.scanOldest now st.cache).1 := h1
    have h2' : e.2.lastAccessedAt = (Cache.scanOldest now st.cache).2 := h2
    refine ⟨e.2, ?_, ?_, ?_⟩
    · rw [← h1']
      simpa using he
    · intro e' he'
      have hle : (Cache.scanOldest now st.cache).2 ≤ e'.2.lastAccessedAt :=
        (Cache.scanFold_snd_le st.cache ("", now)).2 e' he'
      rw [h2']
      exact hle
    · have hcond :
          (decide (cfg.maxSize ≤ st.cache.length) &&
            (Cache.mapGet (Cache.generateKey cfg k) st.cache).isNone) = true := by
        simp [hfull, hnew]
      simp only [Cache.setOp, hen, Bool.true_eq_false, if_false, hcond, if_true]
      simp only [Cache.evictLeastRecentlyUsed, if_pos hev]
      rfl

/-- C4 witness: two resident entries last accessed at times `10` and `5`; a
`set` of a new key at time `100` on the full store selects the entry with
`lastAccessedAt = 5` and emits its stripped key in a `delete` event. -/
theorem claim_C4_witness :
    ∃ item : Cache.Item String,
      ((Cache.scanOldest 100
          [("kms_secret:a", ⟨"va", 10, 300010, 0, 10⟩),
            ("kms_secret:b", ⟨"vb", 5, 300005, 0, 5⟩)]).1, item) ∈
          [("kms_secret:a", (⟨"va", 10, 300010, 0, 10⟩ : Cache.Item String)),
            ("kms_secret:b", ⟨"vb", 5, 300005, 0, 5⟩)] ∧
        (∀ e ∈ [("kms_secret:a", (⟨"va", 10, 300010, 0, 10⟩ : Cache.Item String)),
            ("kms_secret:b", ⟨"vb", 5, 300005, 0, 5⟩)],
          item.lastAccessedAt ≤ e.2.lastAccessedAt) ∧
        (Cache.setOp (Cache.mkConfig true none (some 2) none)
            ⟨[("kms_secret:a", ⟨"va", 10, 300010, 0, 10⟩),
              ("kms_secret:b", ⟨"vb", 5, 300005, 0, 5⟩)], 0, 0⟩ 100 "c" "vc" none).2 =
          [(Cache.EventType.delete,
              Cache.stripKey (Cache.mkConfig true none (some 2) none)
                (Cache.scanOldest 100
                  [("kms_secret:a", ⟨"va", 10, 300010, 0, 10⟩),
                    ("kms_secret:b", ⟨"vb", 5, 300005, 0, 5⟩)]).1, none),
            (Cache.EventType.set, "c", some "vc")] :=
  claim_C4 (Cache.mkConfig true none (some 2) none)
    ⟨[("kms_secret:a", ⟨"va", 10, 300010, 0, 10⟩),
      ("kms_secret:b", ⟨"vb", 5, 300005, 0, 5⟩)], 0, 0⟩ 100 "c" "vc" none rfl
    (by norm_num [Cache.mkConfig, Cache.jsOrN])
    (by simp [Cache.mapGet, Cache.generateKey, Cache.mkConfig, Cache.jsOrS])
    (by norm_num [Cache.scanOldest, Cache.scanStep]; decide)

/-- C2: under the default retry policy (`maxRetries = 3`, `baseDelay = 1000`)
wrapping every remote fetch, an error whose message contains (case-insensitively)
one of the fixed non-retryable patterns is raised after a single attempt with
no retry and no backoff sleep; any other error is retried, sleeping
`baseDelay * 2^(attempt-1) + jitter` with `jitter ∈ [0, 1000)` after each
failed non-final attempt, up to 3 total attempts, after which the last error
is raised; a success on a later attempt returns that value. -/
theorem claim_C2 (op : ℕ → Except String α) (jit : ℕ → ℚ)
    (hjit : ∀ a, 0 ≤ jit a ∧ jit a < 1000) :
    (∀ v, op 1 = Except.ok v →
      Kms.executeWithRetryDefaults op jit = ⟨Except.ok v, 1, []⟩) ∧
    (∀ e, op 1 = Except.error e → Kms.isNonRetryableError e = true →
      Kms.executeWithRetryDefaults op jit = ⟨Except.error e, 1, []⟩) ∧
    (∀ e1 v, op 1 = Except.error e1 → Kms.isNonRetryableError e1 = false →
      op 2 = Except.ok v →
      Kms.executeWithRetryDefaults op jit =
          ⟨Except.ok v, 2, [1000 * 2 ^ 0 + jit 1]⟩ ∧
        1000 ≤ 1000 * 2 ^ 0 + jit 1 ∧ 1000 * 2 ^ 0 + jit 1 < 2000) ∧
    (∀ e1 e2 e3, op 1 = Except.error e1 → Kms.isNonRetryableError e1 = false →
      op 2 = Except.error e2 → Kms.isNonRetryableError e2 = false →
      op 3 = Except.error e3 →
      Kms.executeWithRetryDefaults op jit =
          ⟨Except.error e3, 3, [1000 * 2 ^ 0 + jit 1, 1000 * 2 ^ 1 + jit 2]⟩ ∧
        1000 ≤ 1000 * 2 ^ 0 + jit 1 ∧ 1000 * 2 ^ 0 + jit 1 < 2000 ∧
        2000 ≤ 1000 * 2 ^ 1 + jit 2 ∧ 1000 * 2 ^ 1 + jit 2 < 3000) := by
  refine ⟨?_, ?_, ?_, ?_⟩
  · intro v h1
    simp [Kms.executeWithRetryDefaults, Kms.executeWithRetry, Kms.retryAux, h1]
  · intro e h1 hnr
    simp [Kms.executeWithRetryDefaults, Kms.executeWithRetry, Kms.retryAux, h1, hnr]
  · intro e1 v h1 hnr1 h2
    refine ⟨?_, ?_, ?_⟩
    · simp [Kms.executeWithRetryDefaults, Kms.executeWithRetry, Kms.retryAux,
        h1, hnr1, h2]
    · have := (hjit 1).1
      norm_num
      linarith
    · have := (hjit 1).2
      norm_num
      linarith
  · intro e1 e2 e3 h1 hnr1 h2 hnr2 h3
    have hb1 := hjit 1
    have hb2 := hjit 2
    refine ⟨?_, by norm_num; linarith [hb1.1], by norm_num; linarith [hb1.2],
      by norm_num; linarith [hb2.1], by norm_num; linarith [hb2.2]⟩
    by_cases hnr3 : Kms.isNonRetryableError e3 = true
    · simp [Kms.executeWithRetryDefaults, Kms.executeWithRetry, Kms.retryAux,
        h1, hnr1, h2, hnr2, h3, hnr3]
    · simp [Kms.executeWithRetryDefaults, Kms.executeWithRetry, Kms.retryAux,
        h1, hnr1, h2, hnr2, h3, hnr3]

/-- C2 witness: a fetch failing once with a retryable error ("ECONNRESET")
then succeeding is retried exactly once (2 attempts) with a single backoff
delay of `1000 * 2^0 + 0`. -/
theorem claim_C2_witness :
    Kms.executeWithRetryDefaults
        (fun a => if a = 1 then (Except.error "ECONNRESET" : Except String String)
          else Except.ok "val")
        (fun _ => 0) =
      ⟨Except.ok "val", 2, [1000 * 2 ^ 0 + (fun _ : ℕ => (0 : ℚ)) 1]⟩ :=
  ((claim_C2
      (fun a => if a = 1 then (Except.error "ECONNRESET" : Except String String)
        else Except.ok "val")
      (fun _ => 0)
      (fun _ => by norm_num)).2.2.1 "ECONNRESET" "val" rfl (by decide) rfl).1

namespace Kms

theorem mem_dedupFirst : ∀ (l : List String) (x : String), x ∈ dedupFirst l ↔ x ∈ l := by
  intro l
  induction l using dedupFirst.induct with
  | case1 => simp [dedupFirst]
  | case2 y ys ih =>
      intro x
      rw [dedupFirst]
      simp only [List.mem_cons, ih x, List.mem_filter, bne_iff_ne]
      by_cases hx : x = y <;> simp [hx]

theorem nodup_dedupFirst : ∀ l : List String, (dedupFirst l).Nodup := by
  intro l
  induction l using dedupFirst.induct with
  | case1 => simp [dedupFirst]
  | case2 y ys ih =>
      rw [dedupFirst]
      refine List.nodup_cons.mpr ⟨?_, ih⟩
      rw [mem_dedupFirst]
      simp

theorem dedupFirst_ne_nil (l : List String) (h : l ≠ []) : dedupFirst l ≠ [] := by
  cases l with
  | nil => exact absurd rfl h
  | cons y ys => rw [dedupFirst]; simp

theorem join_chunkAux (k : ℕ) (hk : 1 ≤ k) :
    ∀ (fuel : ℕ) (l : List String), l.length ≤ fuel → (chunkAux k fuel l).flatten = l := by
  intro fuel
  induction fuel with
  | zero =>
      intro l hl
      rw [List.length_eq_zero.mp (Nat.le_zero.mp hl)]
      simp [chunkAux]
  | succ n ih =>
      intro l hl
      cases l with
      | nil => simp [chunkAux]
      | cons x xs =>
          have hstep : chunkAux k (n + 1) (x :: xs) =
              (x :: xs).take k :: chunkAux k n ((x :: xs).drop k) := by
            rw [chunkAux]
            simp
          rw [hstep]
          simp only [List.flatten_cons]
          rw [ih ((x :: xs).drop k)
            (by simp only [List.length_drop, List.length_cons] at hl ⊢; omega)]
          exact List.take_append_drop k (x :: xs)

theorem foldl_fetchStep (f : String → Except String String) :
    ∀ (l : List String) (acc : List (String × String) × List (String × String)),
      l.foldl (fetchStep f) acc = (acc.1 ++ successesOf f l, acc.2 ++ failuresOf f l) := by
  intro l
  induction l with
  | nil => intro acc; simp [successesOf, failuresOf]
  | cons n rest ih =>
      intro acc
      cases hf : f n <;>
        simp [List.foldl_cons, fetchStep, hf, ih, successesOf, failuresOf,
          List.filterMap_cons]

theorem runBatches_eq (f : String → Except String String) (batches : List (List String)) :
    runBatches f batches = (successesOf f batches.flatten, failuresOf f batches.flatten) := by
  suffices h : ∀ acc, batches.foldl (fun acc batch => batch.foldl (fetchStep f) acc) acc =
      (acc.1 ++ successesOf f batches.flatten, acc.2 ++ failuresOf f batches.flatten) by
    simpa [runBatches] using h ([], [])
  induction batches with
  | nil => intro acc; simp [successesOf, failuresOf]
  | cons b bs ih =>
      intro acc
      simp only [List.foldl_cons, List.flatten_cons]
      rw [foldl_fetchStep f b acc, ih]
      simp [successesOf, failuresOf, List.filterMap_append, List.append_assoc]

theorem failuresOf_eq_nil (f : String → Except String String) (l : List String) :
    failuresOf f l = [] ↔ ∀ n ∈ l, ∃ v, f n = Except.ok v := by
  rw [failuresOf, List.filterMap_eq_nil_iff]
  constructor
  · intro h n hn
    have hm := h n hn
    cases hf : f n with
    | ok v => exact ⟨v, rfl⟩
    | error e => rw [hf] at hm; simp at hm
  · intro h n hn
    rcases h n hn with ⟨v, hv⟩
    rw [hv]

theorem successesOf_map_fst (f : String → Except String String) (l : List String)
    (h : ∀ n ∈ l, ∃ v, f n = Except.ok v) :
    (successesOf f l).map Prod.fst = l := by
  induction l with
  | nil => simp [successesOf]
  | cons n rest ih =>
      rcases h n (by simp) with ⟨v, hv⟩
      have ih' := ih fun n' hn' => h n' (by simp [hn'])
      simp only [successesOf] at ih' ⊢
      simp [List.filterMap_cons, hv, ih']

theorem getMultipleSecrets_validated (f : String → Except String String)
    (names : List String) (hne : names ≠ [])
    (hval : validateAllNames names = Except.ok ()) :
    getMultipleSecrets f (NamesArg.arr names) =
      if (failuresOf f (dedupFirst names)).isEmpty then
        ⟨Except.ok (successesOf f (dedupFirst names)), dedupFirst names⟩
      else
        ⟨Except.error (aggregateMsg (failuresOf f (dedupFirst names))),
          dedupFirst names⟩ := by
  have hdne : dedupFirst names ≠ [] := dedupFirst_ne_nil names hne
  have hk : 1 ≤ min (dedupFirst names).length 10 := by
    have hpos : 0 < (dedupFirst names).length := List.length_pos.mpr hdne
    omega
  have hjoin :
      (chunkList (min (dedupFirst names).length 10) (dedupFirst names)).flatten =
        dedupFirst names :=
    join_chunkAux _ hk _ _ le_rfl
  have hie : names.isEmpty = false := by
    cases names with
    | nil => exact absurd rfl hne
    | cons x xs => rfl
  simp only [getMultipleSecrets, hie, Bool.false_eq_true, if_false, hval]
  rw [runBatches_eq, hjoin]

end Kms

/-- C6: `getMultipleSecrets` raises a validation error when its argument is
not an array or some name is invalid (before any fetch); otherwise it issues
exactly one underlying fetch per distinct name (duplicates de-duplicated),
attempts every distinct name to completion, raises a single aggregate error
listing every failed name with its message if and only if at least one name
failed, and on no failures returns a map with exactly one entry per distinct
name. -/
theorem claim_C6 (f : String → Except String String) :
    Kms.getMultipleSecrets f Kms.NamesArg.notAnArray =
        ⟨Except.error "Secret names must be an array", []⟩ ∧
      Kms.getMultipleSecrets f (Kms.NamesArg.arr []) = ⟨Except.ok [], []⟩ ∧
      (∀ names e, names ≠ [] → Kms.validateAllNames names = Except.error e →
        Kms.getMultipleSecrets f (Kms.NamesArg.arr names) = ⟨Except.error e, []⟩) ∧
      (∀ names, names ≠ [] → Kms.validateAllNames names = Except.ok () →
        (Kms.getMultipleSecrets f (Kms.NamesArg.arr names)).fetched =
            Kms.dedupFirst names ∧
          (Kms.dedupFirst names).Nodup ∧
          (∀ n, n ∈ Kms.dedupFirst names ↔ n ∈ names) ∧
          ((∀ n ∈ names, ∃ v, f n = Except.ok v) →
            (Kms.getMultipleSecrets f (Kms.NamesArg.arr names)).result =
                Except.ok (Kms.successesOf f (Kms.dedupFirst names)) ∧
              (Kms.successesOf f (Kms.dedupFirst names)).map Prod.fst =
                Kms.dedupFirst names) ∧
          (Kms.failuresOf f (Kms.dedupFirst names) ≠ [] →
            (Kms.getMultipleSecrets f (Kms.NamesArg.arr names)).result =
              Except.error (Kms.aggregateMsg (Kms.failuresOf f (Kms.dedupFirst names))))) := by
  refine ⟨rfl, rfl, ?_, ?_⟩
  · intro names e hne hval
    have hie : names.isEmpty = false := by
      cases names with
      | nil => exact absurd rfl hne
      | cons x xs => rfl
    simp [Kms.getMultipleSecrets, hie, hval]
  · intro names hne hval
    have hall := Kms.getMultipleSecrets_validated f names hne hval
    refine ⟨?_, Kms.nodup_dedupFirst names, fun n => Kms.mem_dedupFirst names n, ?_, ?_⟩
    · rw [hall]
      split <;> rfl
    · intro hok
      have hfail : Kms.failuresOf f (Kms.dedupFirst names) = [] :=
        (Kms.failuresOf_eq_nil f _).mpr fun n hn =>
          hok n ((Kms.mem_dedupFirst names n).mp hn)
      constructor
      · rw [hall, hfail]
        rfl
      · exact Kms.successesOf_map_fst f _ fun n hn =>
          hok n ((Kms.mem_dedupFirst names n).mp hn)
    · intro hfail
      rw [hall]
      rw [if_neg (by simpa [List.isEmpty_iff] using hfail)]

/-- C6 witness: with every fetch succeeding, `getMultipleSecrets` on
`["a", "a", "b"]` issues exactly the two fetches `["a", "b"]` and returns a
two-entry map. -/
theorem claim_C6_witness :
    (Kms.getMultipleSecrets (fun _ => Except.ok "v")
        (Kms.NamesArg.arr ["a", "a", "b"])).fetched = ["a", "b"] ∧
      (Kms.getMultipleSecrets (fun _ => Except.ok "v")
          (Kms.NamesArg.arr ["a", "a", "b"])).result =
        Except.ok [("a", "v"), ("b", "v")] := by
  have h := (claim_C6 (fun _ => Except.ok "v")).2.2.2 ["a", "a", "b"]
    (by decide) (by decide)
  have hd : Kms.dedupFirst ["a", "a", "b"] = ["a", "b"] := by
    simp [Kms.dedupFirst]
  have hr := (h.2.2.2.1 fun n _ => ⟨"v", rfl⟩).1
  constructor
  · rw [h.1, hd]
  · rw [hr, hd]
    rfl

/-- C3 counterexample: an optional entry with a `defaultValue` whose fetched
value fails its validation rule (a validation-class failure: "Secret value
failed custom validation") does not raise at all — `processSecretConfig`
swallows the error and substitutes the default, and the batch returns
successfully with the default recorded under the entry's key. -/
theorem claim_C3_counterexample :
    Kms.validateSecretValue "anything"
        ⟨false, none, none, none, some fun _ => false⟩ =
      Except.error "Secret value failed custom validation" ∧
    Kms.isValidationClassMsg "Secret value failed custom validation" = true ∧
    Kms.getSecretsWithConfig (fun _ => Except.ok "anything")
        (fun _ => Except.error "unused")
        [("opt", ⟨"s", none, false, some "dflt", false, none,
          some ⟨false, none, none, none, some fun _ => false⟩⟩)] =
      Except.ok ⟨[("opt", "dflt")], [], 1, 1, 0⟩ := by
  refine ⟨by decide, by decide, ?_⟩
  decide

/-- C3 amended: in `getSecretsWithConfig`, a validation-class error (message
containing one of: "validation", "length must be", "does not match",
"Path not found", "Invalid JSON path") is raised immediately with the original
error only for entries marked required; for an optional entry with a
`defaultValue`, every processing failure — validation failures included — is
replaced by the default and recorded as success; for an optional entry
without a default the failure is recorded and processing continues; a
required entry failing with a non-validation-class message is recorded and an
aggregate "Failed to fetch required secrets" error is raised after the loop
instead of the original error. -/
theorem claim_C3_amended (f : String → Except String String)
    (parse : String → Except String Kms.Js) (key : String)
    (config : Kms.SecretConfig) :
    (config.required = true → ∀ e,
      Kms.processSecretConfig f parse key config = Except.error e →
      Kms.isValidationClassMsg e = true →
      Kms.getSecretsWithConfig f parse [(key, config)] = Except.error e) ∧
    (config.required = false → ∀ d, config.defaultValue = some d → ∀ e,
      Kms.processSecretValue f parse config = Except.error e →
      Kms.processSecretConfig f parse key config =
        Except.ok (Cache.jsOrS config.aliasName key, d)) ∧
    (config.required = false → config.defaultValue = none → ∀ e,
      Kms.processSecretValue f parse config = Except.error e →
      Kms.getSecretsWithConfig f parse [(key, config)] =
        Except.ok ⟨[], [(key, e)], 1, 0, 1⟩) ∧
    (config.required = true → ∀ e,
      Kms.processSecretConfig f parse key config = Except.error e →
      Kms.isValidationClassMsg e = false → e ≠ "" →
      Kms.getSecretsWithConfig f parse [(key, config)] =
        Except.error
          ("Failed to fetch required secrets: " ++ String.intercalate ", " [key])) := by
  refine ⟨?_, ?_, ?_, ?_⟩
  · intro hreq e hproc hval
    simp [Kms.getSecretsWithConfig, Kms.getSecretsWithConfigLoop, hproc, hreq, hval]
  · intro hreq d hd e hproc
    simp [Kms.processSecretConfig, hproc, hreq, hd]
  · intro hreq hd e hproc
    have hpc : Kms.processSecretConfig f parse key config = Except.error e := by
      simp [Kms.processSecretConfig, hproc, hreq, hd]
    simp [Kms.getSecretsWithConfig, Kms.getSecretsWithConfigLoop, hpc, hreq,
      Kms.amapSet, Kms.amapGet]
  · intro hreq e hproc hval he
    simp [Kms.getSecretsWithConfig, Kms.getSecretsWithConfigLoop, hproc, hreq, hval,
      Kms.amapSet, Kms.amapGet, he]

/-- C3 amended, witness: a required entry whose fetched value fails its
custom validator aborts the batch immediately with the original validation
error. -/
theorem claim_C3_amended_witness :
    Kms.getSecretsWithConfig (fun _ => Except.ok "anything")
        (fun _ => Except.error "unused")
        [("pw", ⟨"s", none, true, none, false, none,
          some ⟨false, none, none, none, some fun _ => false⟩⟩)] =
      Except.error "Secret value failed custom validation" :=
  (claim_C3_amended (fun _ => Except.ok "anything") (fun _ => Except.error "unused")
      "pw"
      ⟨"s", none, true, none, false, none,
        some ⟨false, none, none, none, some fun _ => false⟩⟩).1 rfl
    "Secret value failed custom validation" (by decide) (by decide)
